import Mathlib

/-!
Shallow embedding of the sunkist-tracker price intelligence pipeline.

Sources embedded:
- `src/utils/price_calculator.py` (`PriceCalculator.find_best_deal`, `PriceCalculator._is_can`)
- `src/product_schema.py` (`ProductSchema.normalize_product`, `validate_product`,
  `_extract_size_ml`, `_extract_pack_qty`)
- `src/retry_utils.py` (`retry_with_backoff`)
- `src/main.py` (`SunkistTracker.find_cheapest_sunkist`)
- `src/utils/results_formatter.py` (`ResultsFormatter.create_summary`)

Python floats are modelled as rationals (ℚ); all arithmetic in the embedded code is
exact at the magnitudes used.  Python strings are modelled as lists of characters,
with ASCII semantics for `str.lower`, `str.strip` and the regex character class `\d`
(all data handled by the program is ASCII).
-/

/-- Python strings are modelled as lists of characters. -/
abbrev Str := List Char

/-- ASCII embedding of Python `str.lower` applied to one character. -/
def lowerChar (c : Char) : Char :=
  if 65 ≤ c.toNat ∧ c.toNat ≤ 90 then Char.ofNat (c.toNat + 32) else c

/-- Embedding of Python `str.lower`. -/
def lowerStr (s : Str) : Str := s.map lowerChar

/-- ASCII decimal digit test, the regex character class `\d`. -/
def isDigitCh (c : Char) : Bool := 48 ≤ c.toNat && c.toNat ≤ 57

/-- Whitespace test for `\s` and `str.strip`. -/
def isWsCh (c : Char) : Bool := c.isWhitespace

/-- Embedding of Python `str.strip` (drop leading and trailing whitespace). -/
def stripStr (s : Str) : Str :=
  (((s.dropWhile isWsCh).reverse.dropWhile isWsCh)).reverse

/-- Substring test, Python's `needle in haystack`. -/
def containsSub (needle : Str) : Str → Bool
  | [] => needle.isEmpty
  | c :: cs => needle.isPrefixOf (c :: cs) || containsSub needle cs

/-- Numeric value of one ASCII digit character. -/
def digitVal (c : Char) : ℕ := c.toNat - 48

/-- Value of a digit string read in base 10 (regex group `(\d+)` → `int`). -/
def digitsVal (ds : Str) : ℕ := ds.foldl (fun a c => 10 * a + digitVal c) 0

/-- Maximal leading digit run of a string and the remainder (greedy `\d+`). -/
def takeDigits (s : Str) : Str × Str := (s.takeWhile isDigitCh, s.dropWhile isDigitCh)

/-- Skip `\s*`. -/
def takeSpaces (s : Str) : Str := s.dropWhile isWsCh

/-- Match a literal and return the remainder of the string, or fail. -/
def dropLit (lit : Str) (s : Str) : Option Str :=
  if lit.isPrefixOf s then some (s.drop lit.length) else none

/-- Fractional value of the digits after a decimal point. -/
def fracVal (fs : Str) : ℚ := (digitsVal fs : ℚ) / 10 ^ fs.length

/-- Digit character for a value `d < 10` (`d ≥ 10` is clamped; never used there). -/
def digitChar (d : ℕ) : Char :=
  if d = 0 then '0' else if d = 1 then '1' else if d = 2 then '2'
  else if d = 3 then '3' else if d = 4 then '4' else if d = 5 then '5'
  else if d = 6 then '6' else if d = 7 then '7' else if d = 8 then '8' else '9'

/-- Decimal digits of a natural number, most significant first (fuel-driven). -/
def natDigitsAux : ℕ → ℕ → Str
  | 0, _ => []
  | fuel + 1, n =>
      if n < 10 then [digitChar n]
      else natDigitsAux fuel (n / 10) ++ [digitChar (n % 10)]

/-- Decimal digit string of a natural number, e.g. `natDigits 12 = "12"`. -/
def natDigits (n : ℕ) : Str := natDigitsAux (n + 1) n

/-- Leftmost-match search: try the matcher at every position, as `re.search`.
All patterns used need at least one character, so the end position never matches. -/
def reSearch {α : Type} (m : Str → Option α) : Str → Option α
  | [] => none
  | c :: cs =>
      match m (c :: cs) with
      | some v => some v
      | none => reSearch m cs

/-- Anchored match for `(\d+(?:\.\d+)?)\s*<lit>`: a greedy digit run, an optional
fractional part (tried first, then dropped, as the regex engine backtracks), then
optional whitespace and the literal `lit`.  Returns the captured number. -/
def matchNumThenLit (lit : Str) (s : Str) : Option ℚ :=
  let (ds, r1) := takeDigits s
  if ds = [] then none
  else
    match r1 with
    | '.' :: r2 =>
        let (fs, r3) := takeDigits r2
        if fs ≠ [] ∧ (dropLit lit (takeSpaces r3)).isSome then
          some ((digitsVal ds : ℚ) + fracVal fs)
        else if (dropLit lit (takeSpaces r1)).isSome then some ((digitsVal ds : ℚ))
        else none
    | _ => if (dropLit lit (takeSpaces r1)).isSome then some ((digitsVal ds : ℚ)) else none

/-- Anchored match for `pack\s*of\s*(\d+)`. -/
def matchPackOf (s : Str) : Option ℕ :=
  match dropLit ('p' :: 'a' :: 'c' :: 'k' :: []) s with
  | none => none
  | some r1 =>
      match dropLit ('o' :: 'f' :: []) (takeSpaces r1) with
      | none => none
      | some r2 =>
          let (ds, _) := takeDigits (takeSpaces r2)
          if ds = [] then none else some (digitsVal ds)

/-- Anchored match for `(\d+)\s*x\s*\d+`. -/
def matchNxM (s : Str) : Option ℕ :=
  let (ds, r1) := takeDigits s
  if ds = [] then none
  else
    match dropLit ('x' :: []) (takeSpaces r1) with
    | none => none
    | some r2 =>
        let (ds2, _) := takeDigits (takeSpaces r2)
        if ds2 = [] then none else some (digitsVal ds)

/-- Anchored match for `(\d+)\s*pack`. -/
def matchNPack (s : Str) : Option ℕ :=
  let (ds, r1) := takeDigits s
  if ds = [] then none
  else
    match dropLit ('p' :: 'a' :: 'c' :: 'k' :: []) (takeSpaces r1) with
    | none => none
    | some _ => some (digitsVal ds)

/-- Embedding of `ProductSchema._extract_size_ml`: first `re.search` for `(\d+(?:\.\d+)?)\s*ml`
on the lowercased text, then for `(\d+(?:\.\d+)?)\s*l(?:itre)?` (×1000), else 0.0. -/
def extract_size_ml (size_text : Str) : ℚ :=
  if size_text = [] then 0
  else
    let s := lowerStr size_text
    match reSearch (matchNumThenLit ('m' :: 'l' :: [])) s with
    | some v => v
    | none =>
        match reSearch (matchNumThenLit ('l' :: [])) s with
        | some v => v * 1000
        | none => 0

/-- One round of `ProductSchema._extract_pack_qty`'s pattern loop over one text:
`pack\s*of\s*(\d+)`, then `(\d+)\s*x\s*\d+`, then `(\d+)\s*pack`. -/
def packQtySearch (s : Str) : Option ℕ :=
  match reSearch matchPackOf s with
  | some n => some n
  | none =>
      match reSearch matchNxM s with
      | some n => some n
      | none => reSearch matchNPack s

/-- Embedding of `ProductSchema._extract_pack_qty`: try the pack patterns on the lowercased size
text, then on the lowercased name text; default 1. -/
def extract_pack_qty (size_text name_text : Str) : ℕ :=
  if size_text = [] ∧ name_text = [] then 1
  else
    match packQtySearch (lowerStr size_text) with
    | some n => n
    | none =>
        match packQtySearch (lowerStr name_text) with
        | some n => n
        | none => 1

/-! ## Price calculator (`src/utils/price_calculator.py`) -/

/-- A product dict as consumed by `PriceCalculator`: the keys the calculator reads,
with `dict.get` defaults folded in (an absent key is represented by its default:
`''`, `0`, `False`), which is behaviour-preserving because every access in the
source is a `get` with exactly that default. -/
structure CalcProduct where
  name : Str
  size : Str
  price : ℚ
  price_per_litre : ℚ
  in_stock : Bool
  retailer : Str := []
deriving DecidableEq, Repr

/-- The multipack indicators of `PriceCalculator._is_can` (checked on the name only,
as in the source; the duplicate entry is kept). -/
def pack_indicators : List Str :=
  ["pack of", "pack of", "multi", "bulk", "case of", "x24", "x12", "x6"].map String.toList

/-- Can indicators of `PriceCalculator._is_can`. -/
def can_indicators : List Str := ["can", "tin", "355ml", "375ml", "330ml"].map String.toList

/-- Bottle indicators of `PriceCalculator._is_can`. -/
def bottle_indicators : List Str := ["bottle", "2l", "1.25l", "1l", "600ml"].map String.toList

/-- Embedding of `PriceCalculator._is_can`: pack indicators are searched in the lowercased name
only; then can/bottle indicators in name or size. -/
def is_can (p : CalcProduct) : Bool :=
  let name_lower := lowerStr p.name
  let size_lower := lowerStr p.size
  let is_pack := pack_indicators.any fun ind => containsSub ind name_lower
  if is_pack then false
  else
    let has_can := can_indicators.any fun i => containsSub i name_lower || containsSub i size_lower
    let has_bottle := bottle_indicators.any fun i => containsSub i name_lower || containsSub i size_lower
    has_can && !has_bottle

/-- Python `min(xs, key=lambda x: x['price_per_litre'])` over `p :: ps`: left fold
keeping the current minimum, replaced only on a strictly smaller key, so the first
minimal element wins. -/
def pyMinPpl (p : CalcProduct) (ps : List CalcProduct) : CalcProduct :=
  ps.foldl (fun best x => if x.price_per_litre < best.price_per_litre then x else best) p

/-- Python `min(l, key=ppl)` of a possibly-empty list; `none` embeds the emptiness test
(`if l:`) that guards each `min` call in the source. -/
def cheapest : List CalcProduct → Option CalcProduct
  | [] => none
  | p :: ps => some (pyMinPpl p ps)

/-- The stock/price pre-filter of `find_best_deal`:
`in_stock and price > 0 and price_per_litre > 0`. -/
def validFilter (p : CalcProduct) : Bool :=
  p.in_stock && decide ((0 : ℚ) < p.price) && decide ((0 : ℚ) < p.price_per_litre)

/-- Embedding of `PriceCalculator.find_best_deal`, translated clause by clause from the source. -/
def find_best_deal (products : List CalcProduct) : Option CalcProduct :=
  if products = [] then none
  else
    let valid_products := products.filter validFilter
    if valid_products = [] then none
    else
      let cans := valid_products.filter is_can
      let bottles := valid_products.filter fun p => !(is_can p)
      let preferred_cans := cans.filter fun p => decide (p.price_per_litre ≤ mkRat 5 2)
      match cheapest preferred_cans with
      | some r => some r
      | none =>
          let preferred_bottles := bottles.filter fun p => decide (p.price_per_litre ≤ (2 : ℚ))
          match cheapest preferred_bottles with
          | some r => some r
          | none =>
              match cheapest bottles with
              | some r => some r
              | none => cheapest cans

/-- Modelled from the spec (§4.5 Best-Deal Selector), for the refinement claim C1:
the tiered selection stated directly over the set of eligible candidates — cheapest
can at ≤ $2.50/L, else cheapest bottle at ≤ $2.00/L, else cheapest bottle overall,
else cheapest can overall, else none; "cheapest" breaks ties towards the earliest
candidate, per the spec's stable-order rule. -/
def specSelect (ps : List CalcProduct) : Option CalcProduct :=
  let E := ps.filter validFilter
  match cheapest (E.filter fun p => is_can p && decide (p.price_per_litre ≤ mkRat 5 2)) with
  | some r => some r
  | none =>
      match cheapest (E.filter fun p => !(is_can p) && decide (p.price_per_litre ≤ (2 : ℚ))) with
      | some r => some r
      | none =>
          match cheapest (E.filter fun p => !(is_can p)) with
          | some r => some r
          | none => cheapest (E.filter is_can)

/-! ## Product schema (`src/product_schema.py`) -/

/-- A loosely-typed Python value, as found in a raw product dict's numeric slots. -/
inductive PyVal where
  | str (s : Str)
  | num (q : ℚ)
  | bool (b : Bool)
  | nil
deriving DecidableEq, Repr

/-- Parse an unsigned float body: `\d+(\.\d*)?` or `\.\d+`. -/
def parseUnsigned (s : Str) : Option (ℚ × Str) :=
  let (ds, r1) := takeDigits s
  match r1 with
  | '.' :: r2 =>
      let (fs, r3) := takeDigits r2
      if ds = [] ∧ fs = [] then none
      else some ((digitsVal ds : ℚ) + fracVal fs, r3)
  | _ => if ds = [] then none else some ((digitsVal ds : ℚ), r1)

/-- Parse an optional sign; returns (negative?, remainder). -/
def parseSign : Str → Bool × Str
  | '+' :: r => (false, r)
  | '-' :: r => (true, r)
  | s => (false, s)

/-- Embedding of Python `float(string)` for finite decimal notation: optional
surrounding whitespace, optional sign, digits with optional fraction, optional
exponent.  Inputs outside this grammar raise `ValueError`, i.e. return `none`
(the non-finite spellings `inf`/`nan` are outside the rational model). -/
def parseFloat (s : Str) : Option ℚ :=
  let s1 := stripStr s
  let (neg, s2) := parseSign s1
  match parseUnsigned s2 with
  | none => none
  | some (q, r) =>
      let signed : ℚ → Option ℚ := fun v => some (if neg then -v else v)
      match r with
      | [] => signed q
      | 'e' :: r2 =>
          match parseSign r2 with
          | (eneg, r3) =>
              let (es, r4) := takeDigits r3
              if es = [] ∨ r4 ≠ [] then none
              else signed (if eneg then q / 10 ^ digitsVal es else q * 10 ^ digitsVal es)
      | 'E' :: r2 =>
          match parseSign r2 with
          | (eneg, r3) =>
              let (es, r4) := takeDigits r3
              if es = [] ∨ r4 ≠ [] then none
              else signed (if eneg then q / 10 ^ digitsVal es else q * 10 ^ digitsVal es)
      | _ => none

/-- Embedding of Python `float(value)` on a loosely-typed value: numbers pass
through, booleans become 0/1, strings are parsed, `None` raises `TypeError`. -/
def pyFloat : PyVal → Option ℚ
  | .num q => some q
  | .bool b => some (if b then 1 else 0)
  | .str s => parseFloat s
  | .nil => none

/-- Embedding of Python `bool(value)` truthiness. -/
def pyTruthy : PyVal → Bool
  | .num q => decide (q ≠ 0)
  | .bool b => b
  | .str s => !s.isEmpty
  | .nil => false

/-- A raw product record as read by `ProductSchema.normalize_product`: the six keys
it accesses; `none` is an absent key.  `name`, `size` and `url` carry the string
values the scrapers put there; the numeric and stock slots are loosely typed. -/
structure RawRecord where
  name : Option Str
  size : Option Str
  price : Option PyVal
  price_per_litre : Option PyVal
  url : Option Str
  in_stock : Option PyVal
deriving DecidableEq, Repr

/-- The canonical product produced by normalization (`ProductSchema.REQUIRED_FIELDS`). -/
structure Product where
  store : Str
  name : Str
  size_ml : ℚ
  pack_qty : ℕ
  price : ℚ
  price_per_litre : ℚ
  url : Str
  in_stock : Bool
deriving DecidableEq, Repr

/-- Embedding of `ProductSchema.validate_product` on a typed product: the `isinstance` checks
hold by construction; the negativity checks on the four numeric fields remain. -/
def validate_product (p : Product) : Bool :=
  decide ((0 : ℚ) ≤ p.size_ml) && decide ((0 : ℚ) ≤ (p.pack_qty : ℚ)) &&
  decide ((0 : ℚ) ≤ p.price) && decide ((0 : ℚ) ≤ p.price_per_litre)

/-- Embedding of `ProductSchema.normalize_product`: build the normalized dict (a `float()` failure
on the price or price-per-litre slot raises and is caught, yielding `None`), then
validate it; `price_per_litre` is copied from the raw record, not derived. -/
def normalize_product (raw : RawRecord) (store : Str) : Option Product :=
  match pyFloat (raw.price.getD (.num 0)), pyFloat (raw.price_per_litre.getD (.num 0)) with
  | some pr, some ppl =>
      let p : Product :=
        { store := store
          name := stripStr (raw.name.getD [])
          size_ml := extract_size_ml (raw.size.getD [])
          pack_qty := extract_pack_qty (raw.size.getD []) (raw.name.getD [])
          price := pr
          price_per_litre := ppl
          url := stripStr (raw.url.getD [])
          in_stock := pyTruthy (raw.in_stock.getD (.bool false)) }
      if validate_product p then some p else none
  | _, _ => none

/-- A normalized `Product` dict treated as its own raw record: the keys it carries;
it has no `size` key. -/
def toRaw (p : Product) : RawRecord :=
  { name := some p.name
    size := none
    price := some (.num p.price)
    price_per_litre := some (.num p.price_per_litre)
    url := some p.url
    in_stock := some (.bool p.in_stock) }

/-! ## Retry executor (`src/retry_utils.py`) -/

/-- Whether an `Except` is a success. -/
def exceptIsOk {E A : Type} : Except E A → Bool
  | .ok _ => true
  | .error _ => false

/-- The delay computed for failed attempt `attempt` (0-indexed):
`min(base_delay * exponential_base ** attempt, max_delay)`, scaled by the jitter
factor for that attempt when jitter is enabled.  `jf` supplies the random factors
drawn by `random.random()` (a factor in `[0.5, 1.0]`); with `jitter = false` it is
never consulted. -/
def backoffDelay (base maxD expB : ℚ) (jitter : Bool) (jf : ℕ → ℚ) (attempt : ℕ) : ℚ :=
  let d := min (base * expB ^ attempt) maxD
  if jitter then d * jf attempt else d

/-- The attempt loop of `retry_with_backoff.decorator.wrapper`, indexed by the
current 0-based attempt number and the number of attempts remaining after it
(`max_retries - attempt`).  `op i` is the outcome of invoking the wrapped operation
the `(i+1)`-th time.  Returns the final outcome, how many times the operation was
invoked, and the list of delays slept between consecutive attempts. -/
def retryGo {E A : Type} (op : ℕ → Except E A) (base maxD expB : ℚ) (jitter : Bool)
    (jf : ℕ → ℚ) : ℕ → ℕ → Except E A × ℕ × List ℚ
  | attempt, 0 =>
      match op attempt with
      | .ok a => (.ok a, 1, [])
      | .error e => (.error e, 1, [])
  | attempt, rem + 1 =>
      match op attempt with
      | .ok a => (.ok a, 1, [])
      | .error _ =>
          let d := backoffDelay base maxD expB jitter jf attempt
          let rest := retryGo op base maxD expB jitter jf (attempt + 1) rem
          (rest.1, rest.2.1 + 1, d :: rest.2.2)

/-- Embedding of `retry_with_backoff(max_retries, base_delay, max_delay, exponential_base, jitter)`
applied to an operation: run the attempt loop from attempt 0 with `max_retries`
further attempts allowed. -/
def retry_with_backoff {E A : Type} (op : ℕ → Except E A) (max_retries : ℕ)
    (base_delay max_delay exponential_base : ℚ) (jitter : Bool) (jf : ℕ → ℚ) :
    Except E A × ℕ × List ℚ :=
  retryGo op base_delay max_delay exponential_base jitter jf 0 max_retries

/-! ## Pipeline entry point (`src/main.py`) and summary (`src/utils/results_formatter.py`) -/

/-- The dict a scraper's `search_target_products` returns: the keys the pipeline
reads (`products`) plus the failure descriptor the scrapers set on internal errors. -/
structure ScraperResult where
  products : List CalcProduct
  error : Option Str := none
deriving DecidableEq, Repr

/-- A per-retailer entry of `results['retailers']`: either the scraper's dict, or
the `{'error': str(e)}` dict recorded when the task raised. -/
inductive RetailerEntry where
  | data (r : ScraperResult)
  | failed (msg : Str)
deriving DecidableEq, Repr

/-- The `best_deal_summary` of `ResultsFormatter.create_summary`. -/
structure BestDealSummary where
  retailer : Str
  price : ℚ
  price_per_litre : ℚ
  size : Str
  in_stock : Bool
deriving DecidableEq, Repr

/-- The `price_range` of `ResultsFormatter.create_summary`. -/
structure PriceRange where
  lo : ℚ
  hi : ℚ
  average : ℚ
deriving DecidableEq, Repr

/-- The summary dict of `ResultsFormatter.create_summary`. -/
structure Summary where
  total_products_found : ℕ
  in_stock_products : ℕ
  retailers_checked : ℕ
  best_deal_summary : Option BestDealSummary
  price_range : Option PriceRange
  search_timestamp : Str
deriving DecidableEq, Repr

/-- Python `min` over a nonempty list of rationals (head plus tail). -/
def listMinQ (q : ℚ) (qs : List ℚ) : ℚ := qs.foldl min q

/-- Python `max` over a nonempty list of rationals (head plus tail). -/
def listMaxQ (q : ℚ) (qs : List ℚ) : ℚ := qs.foldl max q

/-- Embedding of `ResultsFormatter.create_summary`; `now` stands for `datetime.now().isoformat()`. -/
def create_summary (products : List CalcProduct) (best_deal : Option CalcProduct)
    (now : Str) : Summary :=
  let valid_prices := (products.filter fun p => decide ((0 : ℚ) < p.price_per_litre)).map
    fun p => p.price_per_litre
  { total_products_found := products.length
    in_stock_products := (products.filter fun p => p.in_stock).length
    retailers_checked := ((products.map fun p => p.retailer).dedup).length
    best_deal_summary := best_deal.map fun b =>
      { retailer := b.retailer, price := b.price, price_per_litre := b.price_per_litre
        size := b.size, in_stock := b.in_stock }
    price_range :=
      match valid_prices with
      | [] => none
      | q :: qs => some { lo := listMinQ q qs, hi := listMaxQ q qs,
                          average := (q :: qs).sum / (q :: qs).length }
    search_timestamp := now }

/-- The root result dict of `SunkistTracker.find_cheapest_sunkist`: `summary = none`
models the initial empty dict `{}`, which is replaced only when products were found. -/
structure TrackerResult where
  timestamp : Str
  retailers : List (Str × RetailerEntry)
  best_deal : Option CalcProduct
  summary : Option Summary
deriving DecidableEq, Repr

/-- How `find_cheapest_sunkist` records one task outcome delivered by
`asyncio.gather(..., return_exceptions=True)`: a raised exception becomes an
`{'error': str(e)}` entry, a returned dict is stored as-is. -/
def outcomeEntry : Except Str ScraperResult → RetailerEntry
  | .ok r => .data r
  | .error e => .failed e

/-- The products one retailer entry contributes to `all_products`: an entry with a
`products` key contributes its products tagged with the retailer id (the
`product['retailer'] = retailer` assignment), an error entry contributes nothing. -/
def entry_products (rn : Str) : RetailerEntry → List CalcProduct
  | .data r => r.products.map fun p => { p with retailer := rn }
  | .failed _ => []

/-- The `all_products` collection loop of `find_cheapest_sunkist`: for each retailer
entry that has a `products` key, tag each product with the retailer id and collect. -/
def collect_all_products (retailers : List (Str × RetailerEntry)) : List CalcProduct :=
  (retailers.map fun re => entry_products re.1 re.2).flatten

/-- Embedding of `SunkistTracker.find_cheapest_sunkist`, with the three awaited task outcomes as
inputs (the concurrent fan-out is external to this synchronous aggregation logic).
`ts` is `datetime.now().isoformat()` taken at the start, `now` the one taken inside
`create_summary`. -/
def find_cheapest_sunkist (ts now : Str)
    (coles wool amazon : Except Str ScraperResult) : TrackerResult :=
  let retailers := [(String.toList "coles", outcomeEntry coles),
                    (String.toList "woolworths", outcomeEntry wool),
                    (String.toList "amazon", outcomeEntry amazon)]
  let all_products := collect_all_products retailers
  if all_products = [] then
    { timestamp := ts, retailers := retailers, best_deal := none, summary := none }
  else
    let best := find_best_deal all_products
    { timestamp := ts, retailers := retailers, best_deal := best
      summary := some (create_summary all_products best now) }

/-- Whether a source "failed" in the sense of claim C9: its task either raised, or
returned a failure dict (which the scrapers produce with an empty product list). -/
def sourceFailed : Except Str ScraperResult → Prop
  | .error _ => True
  | .ok r => r.products = []

/-! ## Size texts for claim C5 -/

/-- The size text `"N x Mml"`. -/
def sizeTextNxM (n m : ℕ) : Str :=
  natDigits n ++ (' ' :: 'x' :: ' ' :: []) ++ natDigits m ++ ('m' :: 'l' :: [])

/-- The size text `"Mml (pack of N)"`. -/
def sizeTextPackOf (m n : ℕ) : Str :=
  natDigits m ++ ('m' :: 'l' :: ' ' :: '(' :: 'p' :: 'a' :: 'c' :: 'k' :: ' ' :: 'o' :: 'f' :: ' ' :: []) ++
    natDigits n ++ (')' :: [])

/-- The resolved total volume of a size text (with no pack hint in the name):
extracted single-unit millilitres times extracted pack quantity. -/
def totalVolumeMl (size_text : Str) : ℚ :=
  extract_size_ml size_text * (extract_pack_qty size_text [] : ℚ)

/-! ## Lemmas about the price calculator -/

theorem pyMinPpl_cons (p x : CalcProduct) (xs : List CalcProduct) :
    pyMinPpl p (x :: xs) =
      pyMinPpl (if x.price_per_litre < p.price_per_litre then x else p) xs := rfl

theorem pyMinPpl_mem (ps : List CalcProduct) :
    ∀ p, pyMinPpl p ps = p ∨ pyMinPpl p ps ∈ ps := by
  induction ps with
  | nil => intro p; exact Or.inl rfl
  | cons x xs ih =>
      intro p
      rw [pyMinPpl_cons]
      rcases ih (if x.price_per_litre < p.price_per_litre then x else p) with h | h
      · by_cases hc : x.price_per_litre < p.price_per_litre
        · rw [if_pos hc] at h ⊢
          exact Or.inr (by rw [h]; exact List.mem_cons_self x xs)
        · rw [if_neg hc] at h ⊢
          exact Or.inl h
      · exact Or.inr (List.mem_cons_of_mem x h)

theorem cheapest_mem {l : List CalcProduct} {r : CalcProduct}
    (h : cheapest l = some r) : r ∈ l := by
  cases l with
  | nil => simp [cheapest] at h
  | cons p ps =>
      simp only [cheapest, Option.some.injEq] at h
      rcases pyMinPpl_mem ps p with h2 | h2 <;> rw [← h]
      · rw [h2]; exact List.mem_cons_self p ps
      · exact List.mem_cons_of_mem p h2

theorem cheapest_eq_none_iff {l : List CalcProduct} : cheapest l = none ↔ l = [] := by
  cases l <;> simp [cheapest]

theorem cheapest_isSome {l : List CalcProduct} (h : l ≠ []) : (cheapest l).isSome = true := by
  cases l with
  | nil => exact absurd rfl h
  | cons p ps => rfl

theorem filter_filter_comm (f g : CalcProduct → Bool) (l : List CalcProduct) :
    (l.filter f).filter g = l.filter fun a => f a && g a := by
  rw [List.filter_filter]
  exact List.filter_congr fun a _ => Bool.and_comm (g a) (f a)

theorem find_best_deal_mem_valid {ps : List CalcProduct} {p : CalcProduct}
    (h : find_best_deal ps = some p) : p ∈ ps.filter validFilter := by
  simp only [find_best_deal] at h
  by_cases h0 : ps = []
  · rw [if_pos h0] at h; exact absurd h (by simp)
  · rw [if_neg h0] at h
    by_cases h1 : ps.filter validFilter = []
    · rw [if_pos h1] at h; exact absurd h (by simp)
    · rw [if_neg h1] at h
      split at h
      · next r heq =>
          injection h with h'
          subst h'
          exact List.mem_of_mem_filter (List.mem_of_mem_filter (cheapest_mem heq))
      · split at h
        · next r heq =>
            injection h with h'
            subst h'
            exact List.mem_of_mem_filter (List.mem_of_mem_filter (cheapest_mem heq))
        · split at h
          · next r heq =>
              injection h with h'
              subst h'
              exact List.mem_of_mem_filter (cheapest_mem heq)
          · exact List.mem_of_mem_filter (cheapest_mem h)

theorem validFilter_eq_true {p : CalcProduct} :
    validFilter p = true ↔ p.in_stock = true ∧ 0 < p.price ∧ 0 < p.price_per_litre := by
  simp [validFilter, and_assoc]

theorem find_best_deal_isSome {ps : List CalcProduct}
    (h : ps.filter validFilter ≠ []) : (find_best_deal ps).isSome = true := by
  have h0 : ps ≠ [] := by
    intro hnil; exact h (by rw [hnil]; rfl)
  simp only [find_best_deal]
  rw [if_neg h0, if_neg h]
  obtain ⟨p, hp⟩ := List.exists_mem_of_ne_nil _ h
  split
  · rfl
  · split
    · rfl
    · split
      · rfl
      · next hb3 =>
          have hbot : (ps.filter validFilter).filter (fun p => !(is_can p)) = [] :=
            cheapest_eq_none_iff.mp hb3
          apply cheapest_isSome
          intro hcans
          by_cases hc : is_can p
          · have : p ∈ (ps.filter validFilter).filter is_can := List.mem_filter.mpr ⟨hp, hc⟩
            rw [hcans] at this
            exact absurd this (List.not_mem_nil p)
          · have : p ∈ (ps.filter validFilter).filter (fun p => !(is_can p)) :=
              List.mem_filter.mpr ⟨hp, by simp [hc]⟩
            rw [hbot] at this
            exact absurd this (List.not_mem_nil p)

/-- C1: `find_best_deal` implements the spec's tiered selection over the eligible
candidates exactly (cheapest can at ≤ $2.50/L, else cheapest bottle at ≤ $2.00/L,
else cheapest bottle overall, else cheapest can overall, else none, ties broken
towards the earliest candidate), and in particular on an input with an in-stock can
at $3.00/L and an in-stock bottle at $2.50/L it returns the bottle. -/
theorem C1_find_best_deal_tiered :
    (∀ ps : List CalcProduct, find_best_deal ps = specSelect ps) ∧
    find_best_deal
      [{ name := String.toList "Sunkist can", size := [], price := 5,
         price_per_litre := 3, in_stock := true },
       { name := String.toList "Sunkist bottle", size := [], price := 5,
         price_per_litre := mkRat 5 2, in_stock := true }] =
      some { name := String.toList "Sunkist bottle", size := [], price := 5,
             price_per_litre := mkRat 5 2, in_stock := true } := by
  constructor
  · intro ps
    simp only [find_best_deal, specSelect]
    by_cases h0 : ps = []
    · subst h0; rfl
    · rw [if_neg h0]
      by_cases h1 : ps.filter validFilter = []
      · rw [if_pos h1, h1]; rfl
      · rw [if_neg h1,
            filter_filter_comm is_can (fun p => decide (p.price_per_litre ≤ mkRat 5 2)),
            filter_filter_comm (fun p => !(is_can p)) (fun p => decide (p.price_per_litre ≤ (2 : ℚ)))]
  · decide

/-- C2 counterexample: an in-stock product with `price_per_litre > 0` but
`price = 0` is not selected even when it is the only product, so eligibility is not
determined by `in_stock` and `price_per_litre` alone; an otherwise identical product
with `price = 1` is selected, so the `price` field affects eligibility. -/
theorem C2_counterexample :
    find_best_deal
        [{ name := [], size := [], price := 0, price_per_litre := 2, in_stock := true }] = none ∧
    find_best_deal
        [{ name := [], size := [], price := 1, price_per_litre := 2, in_stock := true }] =
      some { name := [], size := [], price := 1, price_per_litre := 2, in_stock := true } := by
  exact ⟨by decide, by decide⟩

/-- C2 (amended): a product is an eligible candidate of `find_best_deal` iff
`in_stock` is true, `price > 0` **and** `price_per_litre > 0`: every returned
product is an input satisfying all three, and a recommendation exists iff some
input satisfies all three (so a product with `price_per_litre = 0` is never
selected). -/
theorem C2_eligibility_amended :
    (∀ (ps : List CalcProduct) (p : CalcProduct), find_best_deal ps = some p →
        p ∈ ps ∧ p.in_stock = true ∧ 0 < p.price ∧ 0 < p.price_per_litre) ∧
    (∀ ps : List CalcProduct, (find_best_deal ps).isSome = true ↔
        ∃ p ∈ ps, p.in_stock = true ∧ 0 < p.price ∧ 0 < p.price_per_litre) := by
  constructor
  · intro ps p h
    have hv := find_best_deal_mem_valid h
    have := List.mem_filter.mp hv
    exact ⟨this.1, validFilter_eq_true.mp this.2⟩
  · intro ps
    constructor
    · intro h
      obtain ⟨p, hp⟩ := Option.isSome_iff_exists.mp h
      have hv := find_best_deal_mem_valid hp
      have := List.mem_filter.mp hv
      exact ⟨p, this.1, validFilter_eq_true.mp this.2⟩
    · intro ⟨p, hmem, helig⟩
      apply find_best_deal_isSome
      intro hnil
      have : p ∈ ps.filter validFilter :=
        List.mem_filter.mpr ⟨hmem, validFilter_eq_true.mpr helig⟩
      rw [hnil] at this
      exact absurd this (List.not_mem_nil p)

/-- C2 witness: instantiates both parts of the amended eligibility theorem on a
concrete singleton list. -/
theorem C2_eligibility_amended_witness :
    (({ name := [], size := [], price := 1, price_per_litre := 2,
        in_stock := true } : CalcProduct) ∈
        [({ name := [], size := [], price := 1, price_per_litre := 2,
            in_stock := true } : CalcProduct)] ∧
      ({ name := [], size := [], price := 1, price_per_litre := 2,
         in_stock := true } : CalcProduct).in_stock = true ∧
      (0 : ℚ) < 1 ∧ (0 : ℚ) < 2) ∧
    (find_best_deal
        [{ name := [], size := [], price := 1, price_per_litre := 2,
           in_stock := true }]).isSome = true := by
  constructor
  · exact C2_eligibility_amended.1
      [{ name := [], size := [], price := 1, price_per_litre := 2, in_stock := true }]
      { name := [], size := [], price := 1, price_per_litre := 2, in_stock := true }
      (by decide)
  · exact (C2_eligibility_amended.2
      [{ name := [], size := [], price := 1, price_per_litre := 2, in_stock := true }]).mpr
      ⟨{ name := [], size := [], price := 1, price_per_litre := 2, in_stock := true },
        List.mem_cons_self _ _, rfl, by decide, by decide⟩

/-- C7 counterexample: a product whose size text contains the multipack keyword
"pack of" (and whose name does not) is still classified as a can, because the
source checks pack indicators on the name only. -/
theorem C7_counterexample :
    is_can { name := String.toList "Sunkist can",
             size := String.toList "375ml (pack of 24)",
             price := 1, price_per_litre := 1, in_stock := true } = true ∧
    containsSub (String.toList "pack of")
        (lowerStr (String.toList "375ml (pack of 24)")) = true := by
  exact ⟨by decide, by decide⟩

/-- C7 (amended): a product whose **name** contains one of the pack indicators
(`pack of`, `multi`, `bulk`, `case of`, `x24`, `x12`, `x6`) is excluded from the
can class regardless of any can keywords; pack indicators appearing only in the
size text do not trigger the exclusion. -/
theorem C7_pack_name_excludes_can (p : CalcProduct)
    (h : (pack_indicators.any fun ind => containsSub ind (lowerStr p.name)) = true) :
    is_can p = false := by
  simp only [is_can]
  rw [if_pos h]

/-- C7 witness: a product named "sunkist can pack of 24" is rejected from the can
class by the amended theorem. -/
theorem C7_pack_name_excludes_can_witness :
    (pack_indicators.any fun ind =>
        containsSub ind (lowerStr (String.toList "sunkist can pack of 24"))) = true ∧
    is_can { name := String.toList "sunkist can pack of 24", size := [],
             price := 1, price_per_litre := 1, in_stock := true } = false := by
  exact ⟨by decide,
    C7_pack_name_excludes_can
      { name := String.toList "sunkist can pack of 24", size := [],
        price := 1, price_per_litre := 1, in_stock := true } (by decide)⟩

/-- C10: `find_best_deal` is a read-only selection — its embedding is a pure
function of the input list (the source performs no assignment to the list or its
records), and whenever it returns a recommendation, the returned record is one of
the input records. -/
theorem C10_find_best_deal_returns_input (ps : List CalcProduct) (p : CalcProduct)
    (h : find_best_deal ps = some p) : p ∈ ps :=
  List.mem_of_mem_filter (find_best_deal_mem_valid h)

/-- C10 witness: instantiated on a concrete singleton list. -/
theorem C10_find_best_deal_returns_input_witness :
    find_best_deal
        [{ name := [], size := [], price := 1, price_per_litre := 2,
           in_stock := true }] =
      some { name := [], size := [], price := 1, price_per_litre := 2,
             in_stock := true } ∧
    ({ name := [], size := [], price := 1, price_per_litre := 2,
       in_stock := true } : CalcProduct) ∈
      [({ name := [], size := [], price := 1, price_per_litre := 2,
          in_stock := true } : CalcProduct)] := by
  refine ⟨by decide, ?_⟩
  exact C10_find_best_deal_returns_input _ _ (by decide)

/-! ## Lemmas about the retry executor -/

theorem retryGo_ok {E A : Type} (op : ℕ → Except E A) (base maxD expB : ℚ) (jf : ℕ → ℚ) :
    ∀ (i attempt rem : ℕ) (a : A), i ≤ rem →
      (∀ j, attempt ≤ j → j < attempt + i → exceptIsOk (op j) = false) →
      op (attempt + i) = .ok a →
      retryGo op base maxD expB false jf attempt rem =
        (.ok a, i + 1, (List.range i).map fun j => min (base * expB ^ (attempt + j)) maxD) := by
  intro i
  induction i with
  | zero =>
      intro attempt rem a _ _ hok
      rw [Nat.add_zero] at hok
      cases rem with
      | zero => simp [retryGo, hok]
      | succ r => simp [retryGo, hok]
  | succ i ih =>
      intro attempt rem a hle hfail hok
      cases rem with
      | zero => omega
      | succ r =>
          have hfa : exceptIsOk (op attempt) = false :=
            hfail attempt (Nat.le_refl _) (by omega)
          obtain ⟨e, he⟩ : ∃ e, op attempt = .error e := by
            cases hcase : op attempt with
            | ok a' => rw [hcase] at hfa; simp [exceptIsOk] at hfa
            | error e => exact ⟨e, rfl⟩
          have hok' : op (attempt + 1 + i) = .ok a := by
            rw [show attempt + 1 + i = attempt + (i + 1) by omega]; exact hok
          have hfail' : ∀ j, attempt + 1 ≤ j → j < attempt + 1 + i → exceptIsOk (op j) = false := by
            intro j h1 h2
            exact hfail j (by omega) (by omega)
          have hrec := ih (attempt + 1) r a (by omega) hfail' hok'
          simp only [retryGo, he, hrec, backoffDelay, Bool.false_eq_true, if_false,
            Prod.mk.injEq, true_and]
          rw [List.range_succ_eq_map, List.map_cons, List.map_map]
          congr 1
          apply List.map_congr_left
          intro j _
          simp only [Function.comp_apply]
          have hj : attempt + 1 + j = attempt + Nat.succ j := by omega
          rw [hj]

/-- C4: with `max_retries = 3`, `base_delay = 1.0`, `exponential_base = 2.0`,
`jitter = False` and an operation failing on every attempt, `retry_with_backoff`
invokes the operation exactly 4 times, sleeps exactly 1.0, 2.0 and 4.0 seconds
between consecutive attempts, does not sleep after the 4th failure, and propagates
the 4th attempt's failure unchanged; and in general, for any parameters, if the
operation first succeeds on attempt `i ≤ max_retries`, its result is returned
immediately after `i + 1` invocations, the delays slept being
`min(base_delay * exponential_base ** j, max_delay)` for each failed attempt `j < i`. -/
theorem C4_retry_backoff_schedule :
    (∀ (E : Type) (f : ℕ → E) (jf : ℕ → ℚ),
        retry_with_backoff (A := Unit) (fun i => .error (f i)) 3 1 60 2 false jf =
          (.error (f 3), 4, [1, 2, 4])) ∧
    (∀ (E A : Type) (op : ℕ → Except E A) (max_retries : ℕ)
        (base maxD expB : ℚ) (jf : ℕ → ℚ) (i : ℕ) (a : A),
        i ≤ max_retries →
        (∀ j, j < i → exceptIsOk (op j) = false) →
        op i = .ok a →
        retry_with_backoff op max_retries base maxD expB false jf =
          (.ok a, i + 1, (List.range i).map fun j => min (base * expB ^ j) maxD)) := by
  constructor
  · intro E f jf
    norm_num [retry_with_backoff, retryGo, backoffDelay, min_def]
  · intro E A op max_retries base maxD expB jf i a hle hfail hok
    have := retryGo_ok op base maxD expB jf i 0 max_retries a hle
      (fun j _ hj => hfail j (by omega)) (by rw [Nat.zero_add]; exact hok)
    rw [retry_with_backoff, this]
    simp only [Nat.zero_add]

/-- The concrete operation used by the C4 witness: fails twice, then succeeds. -/
def opTwiceFail : ℕ → Except (List Char) ℕ :=
  fun j => if j < 2 then .error (String.toList "transient") else .ok 7

/-- C4 witness: both parts of the retry theorem applied at concrete inputs. -/
theorem C4_retry_backoff_schedule_witness :
    retry_with_backoff (A := Unit) (fun i => Except.error i) 3 1 60 2 false (fun _ => 1) =
      (.error 3, 4, [1, 2, 4]) ∧
    (2 ≤ 3 ∧ (∀ j, j < 2 → exceptIsOk (opTwiceFail j) = false) ∧ opTwiceFail 2 = .ok 7) ∧
    retry_with_backoff opTwiceFail 3 1 60 2 false (fun _ => 1) =
      (.ok 7, 2 + 1, (List.range 2).map fun j => min (1 * 2 ^ j) 60) := by
  refine ⟨C4_retry_backoff_schedule.1 ℕ (fun i => i) (fun _ => 1), ⟨by decide, ?_, rfl⟩, ?_⟩
  · decide
  · exact C4_retry_backoff_schedule.2 (List Char) ℕ opTwiceFail 3 1 60 2 (fun _ => 1) 2 7
      (by decide) (by decide) rfl

/-! ## Lemmas about the pipeline entry point -/

theorem entry_products_nil (rn : Str) (o : Except Str ScraperResult)
    (h : sourceFailed o) : entry_products rn (outcomeEntry o) = [] := by
  cases o with
  | error e => rfl
  | ok r =>
      simp only [sourceFailed] at h
      simp only [outcomeEntry, entry_products, h, List.map_nil]

/-- C9: when every configured source fails — its task raises, or it returns a
failure dict (empty product list) — the pipeline entry point still returns a
well-formed result: the timestamp, one retailer entry per source recording that
source's outcome (the stringified exception for a raised failure), no best-deal
recommendation and the initial empty summary; the collected product set is empty,
and no error propagates (the embedding is total). -/
theorem C9_all_sources_failed (ts now : Str) (o1 o2 o3 : Except Str ScraperResult)
    (h1 : sourceFailed o1) (h2 : sourceFailed o2) (h3 : sourceFailed o3) :
    find_cheapest_sunkist ts now o1 o2 o3 =
      { timestamp := ts
        retailers := [(String.toList "coles", outcomeEntry o1),
                      (String.toList "woolworths", outcomeEntry o2),
                      (String.toList "amazon", outcomeEntry o3)]
        best_deal := none
        summary := none } ∧
    collect_all_products [(String.toList "coles", outcomeEntry o1),
                          (String.toList "woolworths", outcomeEntry o2),
                          (String.toList "amazon", outcomeEntry o3)] = [] := by
  have hc : collect_all_products [(String.toList "coles", outcomeEntry o1),
      (String.toList "woolworths", outcomeEntry o2),
      (String.toList "amazon", outcomeEntry o3)] = [] := by
    simp only [collect_all_products, List.map_cons, List.map_nil]
    rw [entry_products_nil _ _ h1, entry_products_nil _ _ h2, entry_products_nil _ _ h3]
    rfl
  refine ⟨?_, hc⟩
  simp only [find_cheapest_sunkist]
  rw [if_pos hc]

/-- The failure dict a blocked scraper returns, used by the C9 witness. -/
def blockedDict : ScraperResult :=
  { products := [], error := some (String.toList "blocked by challenge") }

/-- C9 witness: two raised failures and one returned failure dict yield the
well-formed empty result. -/
theorem C9_all_sources_failed_witness :
    find_cheapest_sunkist (String.toList "2026-10-12T00:00:00") (String.toList "now")
        (.error (String.toList "coles: timeout"))
        (.ok blockedDict)
        (.error (String.toList "amazon: parse error")) =
      { timestamp := String.toList "2026-10-12T00:00:00"
        retailers := [(String.toList "coles",
                        outcomeEntry (.error (String.toList "coles: timeout"))),
                      (String.toList "woolworths", outcomeEntry (.ok blockedDict)),
                      (String.toList "amazon",
                        outcomeEntry (.error (String.toList "amazon: parse error")))]
        best_deal := none
        summary := none } ∧
    collect_all_products
        [(String.toList "coles", outcomeEntry (.error (String.toList "coles: timeout"))),
         (String.toList "woolworths", outcomeEntry (.ok blockedDict)),
         (String.toList "amazon",
           outcomeEntry (.error (String.toList "amazon: parse error")))] = [] :=
  C9_all_sources_failed _ _ _ _ _ trivial rfl trivial

/-! ## Lemmas about normalization -/

/-- A raw record with a valid size text, a price of 10 and a supplied
`price_per_litre` of 5 (inconsistent with price/volume on purpose). -/
def rawInconsistent : RawRecord :=
  { name := some (String.toList "Sunkist Zero")
    size := some (String.toList "1000ml")
    price := some (.num 10)
    price_per_litre := some (.num 5)
    url := some []
    in_stock := some (.bool true) }

/-- The product `normalize_product` produces from `rawInconsistent`. -/
def prodInconsistent : Product :=
  { store := String.toList "coles"
    name := String.toList "Sunkist Zero"
    size_ml := 1000
    pack_qty := 1
    price := 10
    price_per_litre := 5
    url := []
    in_stock := true }

/-- C3 counterexample: `normalize_product` keeps the raw record's
`price_per_litre` of 5 even though `price / (size_ml/1000 * pack_qty)` of the very
product it returns is 10 > 0, so `price_per_litre` is not derived from the other
canonical fields. -/
theorem C3_counterexample :
    normalize_product rawInconsistent (String.toList "coles") = some prodInconsistent ∧
    0 < prodInconsistent.size_ml / 1000 * (prodInconsistent.pack_qty : ℚ) ∧
    prodInconsistent.price_per_litre ≠
      prodInconsistent.price /
        (prodInconsistent.size_ml / 1000 * (prodInconsistent.pack_qty : ℚ)) := by
  refine ⟨by decide, by norm_num [prodInconsistent], by norm_num [prodInconsistent]⟩

/-- C3 (amended): the `price_per_litre` of the Product produced by
`normalize_product` is the float-coercion of the raw record's own
`price_per_litre` field (default 0 when absent); it is not re-derived from
`price`, `size_ml` and `pack_qty`. -/
theorem C3_ppl_copied_from_raw (raw : RawRecord) (store : Str) (p : Product)
    (h : normalize_product raw store = some p) :
    pyFloat (raw.price_per_litre.getD (.num 0)) = some p.price_per_litre := by
  simp only [normalize_product] at h
  split at h
  · next pr ppl hpr hppl =>
      split at h
      · injection h with h'
        subst h'
        rw [hppl]
      · exact absurd h (by simp)
  · exact absurd h (by simp)

/-- C3 witness: the amended pass-through theorem applied to `rawInconsistent`. -/
theorem C3_ppl_copied_from_raw_witness :
    normalize_product rawInconsistent (String.toList "coles") = some prodInconsistent ∧
    pyFloat (rawInconsistent.price_per_litre.getD (.num 0)) =
      some prodInconsistent.price_per_litre := by
  refine ⟨by decide, ?_⟩
  exact C3_ppl_copied_from_raw rawInconsistent (String.toList "coles") prodInconsistent
    (by decide)

/-- A raw record that is valid except for a non-numeric price string. -/
def rawBadPrice : RawRecord :=
  { name := some (String.toList "Sunkist Zero")
    size := some (String.toList "375ml")
    price := some (.str (String.toList "abc"))
    price_per_litre := some (.num 1)
    url := some []
    in_stock := some (.bool true) }

/-- C8 counterexample: a record whose price field is an unparsable string is
rejected by `normalize_product` (the `float()` call raises `ValueError`, caught as
a normalization failure), not coerced to 0.0 — while the same record with the
price absent is accepted with price 0.0, showing it is otherwise valid. -/
theorem C8_counterexample :
    normalize_product rawBadPrice (String.toList "coles") = none ∧
    normalize_product { rawBadPrice with price := none } (String.toList "coles") =
      some { store := String.toList "coles"
             name := String.toList "Sunkist Zero"
             size_ml := 375
             pack_qty := 1
             price := 0
             price_per_litre := 1
             url := []
             in_stock := true } := by
  exact ⟨by decide, by decide⟩

/-- C8 (amended): an absent price is coerced to 0.0 and does not by itself cause
rejection — normalization behaves exactly as if the price were the number 0, and
any Product produced from such a record has price 0.0 — whereas a price string
that `float()` cannot parse raises `ValueError`, which is caught and rejects the
record (`normalize_product` returns none). -/
theorem C8_absent_price_zero_unparsable_rejected :
    (∀ (raw : RawRecord) (store : Str), raw.price = none →
        normalize_product raw store =
          normalize_product { raw with price := some (.num 0) } store) ∧
    (∀ (raw : RawRecord) (store : Str) (p : Product), raw.price = none →
        normalize_product raw store = some p → p.price = 0) ∧
    (∀ (raw : RawRecord) (store : Str) (s : Str), raw.price = some (.str s) →
        parseFloat s = none → normalize_product raw store = none) := by
  refine ⟨?_, ?_, ?_⟩
  · intro raw store h
    simp [normalize_product, h]
  · intro raw store p h heq
    simp only [normalize_product, h] at heq
    split at heq
    · next pr ppl hpr hppl =>
        split at heq
        · injection heq with h'
          subst h'
          injection hpr with h''
          exact h''.symm
        · exact absurd heq (by simp)
    · exact absurd heq (by simp)
  · intro raw store s h hparse
    simp [normalize_product, h, pyFloat, hparse]

/-- C8 witness: the three parts of the amended theorem applied to concrete records. -/
theorem C8_absent_price_witness :
    normalize_product { rawBadPrice with price := none } (String.toList "coles") =
      normalize_product { rawBadPrice with price := some (.num 0) }
        (String.toList "coles") ∧
    ({ store := String.toList "coles", name := String.toList "Sunkist Zero",
       size_ml := 375, pack_qty := 1, price := 0, price_per_litre := 1,
       url := [], in_stock := true } : Product).price = 0 ∧
    normalize_product rawBadPrice (String.toList "coles") = none := by
  refine ⟨?_, ?_, ?_⟩
  · exact C8_absent_price_zero_unparsable_rejected.1
      { rawBadPrice with price := none } (String.toList "coles") rfl
  · exact C8_absent_price_zero_unparsable_rejected.2.1
      { rawBadPrice with price := none } (String.toList "coles") _ rfl (by decide)
  · exact C8_absent_price_zero_unparsable_rejected.2.2
      rawBadPrice (String.toList "coles") (String.toList "abc") rfl (by decide)

theorem stripStr_as_rdropWhile (x : Str) :
    stripStr x = List.rdropWhile isWsCh (x.dropWhile isWsCh) := rfl

theorem stripStr_idem (s : Str) : stripStr (stripStr s) = stripStr s := by
  rw [stripStr_as_rdropWhile, stripStr_as_rdropWhile]
  have hdt : (s.dropWhile isWsCh).dropWhile isWsCh = s.dropWhile isWsCh :=
    List.dropWhile_idempotent isWsCh s
  have hdu : (List.rdropWhile isWsCh (s.dropWhile isWsCh)).dropWhile isWsCh =
      List.rdropWhile isWsCh (s.dropWhile isWsCh) := by
    cases hcase : List.rdropWhile isWsCh (s.dropWhile isWsCh) with
    | nil => rfl
    | cons c u =>
        obtain ⟨w, hw⟩ := List.rdropWhile_prefix isWsCh (s.dropWhile isWsCh)
        rw [hcase] at hw
        have hteq : s.dropWhile isWsCh = c :: (u ++ w) := by
          rw [← hw]; rfl
        rw [hteq] at hdt
        have hc := List.dropWhile_eq_self_iff.mp hdt (by simp)
        simp only [List.get] at hc
        exact List.dropWhile_cons_of_neg hc
  rw [hdu]
  exact List.rdropWhile_idempotent isWsCh (s.dropWhile isWsCh)

theorem extract_size_ml_nil : extract_size_ml [] = 0 := rfl

theorem validate_product_eq_true {p : Product} :
    validate_product p = true ↔
      0 ≤ p.size_ml ∧ 0 ≤ (p.pack_qty : ℚ) ∧ 0 ≤ p.price ∧ 0 ≤ p.price_per_litre := by
  simp [validate_product, and_assoc]

/-- Re-normalizing a canonical product whose name and url are already stripped and
whose numeric fields are non-negative: `size_ml` is re-extracted from the absent
size text (0.0), `pack_qty` from the name alone, everything else is preserved. -/
theorem normalize_toRaw (p : Product) (store : Str)
    (hname : stripStr p.name = p.name) (hurl : stripStr p.url = p.url)
    (hprice : 0 ≤ p.price) (hppl : 0 ≤ p.price_per_litre) :
    normalize_product (toRaw p) store =
      some { store := store, name := p.name, size_ml := 0,
             pack_qty := extract_pack_qty [] p.name, price := p.price,
             price_per_litre := p.price_per_litre, url := p.url,
             in_stock := p.in_stock } := by
  simp only [normalize_product, toRaw, Option.getD_some, Option.getD_none, pyFloat,
    pyTruthy, extract_size_ml_nil, hname, hurl]
  have hv : validate_product
      { store := store, name := p.name, size_ml := 0,
        pack_qty := extract_pack_qty [] p.name, price := p.price,
        price_per_litre := p.price_per_litre, url := p.url,
        in_stock := p.in_stock } = true :=
    validate_product_eq_true.mpr ⟨le_refl 0, Nat.cast_nonneg _, hprice, hppl⟩
  rw [if_pos hv]

/-- The raw record used by the C6 counterexample: a valid record with a size text. -/
def rawWithSize : RawRecord :=
  { name := some (String.toList "Sunkist Zero")
    size := some (String.toList "375ml")
    price := some (.num 2)
    price_per_litre := some (.num 1)
    url := some []
    in_stock := some (.bool true) }

/-- The product normalization yields from `rawWithSize`. -/
def prodWithSize : Product :=
  { store := String.toList "coles"
    name := String.toList "Sunkist Zero"
    size_ml := 375
    pack_qty := 1
    price := 2
    price_per_litre := 1
    url := []
    in_stock := true }

/-- C6 counterexample: a valid record with size text "375ml" normalizes to a
product with `size_ml = 375`, but feeding that product back into
`normalize_product` as its own raw record does not reproduce it (the canonical
product has no `size` key, so `size_ml` is re-extracted from an empty string). -/
theorem C6_counterexample :
    normalize_product rawWithSize (String.toList "coles") = some prodWithSize ∧
    normalize_product (toRaw prodWithSize) (String.toList "coles") ≠
      some prodWithSize := by
  exact ⟨by decide, by decide⟩

/-- C6 (amended): re-normalizing a Product produced by `normalize_product` (fed
back as its own raw record, which carries no size text) yields a Product that
agrees with the original on `store`, `name`, `price`, `price_per_litre`, `url`
and `in_stock`, but whose `size_ml` is 0.0 and whose `pack_qty` is re-extracted
from the name alone; from the second application onwards, normalization is
idempotent: re-normalizing that product reproduces it exactly. -/
theorem C6_renormalization (raw : RawRecord) (store : Str) (p : Product)
    (h : normalize_product raw store = some p) :
    ∃ q : Product,
      normalize_product (toRaw p) store = some q ∧
      q.store = store ∧ q.name = p.name ∧ q.price = p.price ∧
      q.price_per_litre = p.price_per_litre ∧ q.url = p.url ∧
      q.in_stock = p.in_stock ∧ q.size_ml = 0 ∧
      q.pack_qty = extract_pack_qty [] p.name ∧
      normalize_product (toRaw q) store = some q := by
  simp only [normalize_product] at h
  have hfacts : validate_product p = true ∧ stripStr p.name = p.name ∧
      stripStr p.url = p.url := by
    split at h
    · next pr ppl hpr hppl =>
        split at h
        · next hval =>
            injection h with h'
            subst h'
            exact ⟨hval, stripStr_idem _, stripStr_idem _⟩
        · exact absurd h (by simp)
    · exact absurd h (by simp)
  obtain ⟨hval, hname, hurl⟩ := hfacts
  obtain ⟨-, -, hprice, hppl⟩ := validate_product_eq_true.mp hval
  refine ⟨{ store := store, name := p.name, size_ml := 0,
            pack_qty := extract_pack_qty [] p.name, price := p.price,
            price_per_litre := p.price_per_litre, url := p.url,
            in_stock := p.in_stock },
    normalize_toRaw p store hname hurl hprice hppl,
    rfl, rfl, rfl, rfl, rfl, rfl, rfl, rfl, ?_⟩
  exact normalize_toRaw _ store hname hurl hprice hppl

/-- C6 witness: the amended re-normalization theorem applied to `rawWithSize`. -/
theorem C6_renormalization_witness :
    ∃ q : Product,
      normalize_product (toRaw prodWithSize) (String.toList "coles") = some q ∧
      q.store = String.toList "coles" ∧ q.name = prodWithSize.name ∧
      q.price = prodWithSize.price ∧
      q.price_per_litre = prodWithSize.price_per_litre ∧
      q.url = prodWithSize.url ∧ q.in_stock = prodWithSize.in_stock ∧
      q.size_ml = 0 ∧ q.pack_qty = extract_pack_qty [] prodWithSize.name ∧
      normalize_product (toRaw q) (String.toList "coles") = some q :=
  C6_renormalization rawWithSize (String.toList "coles") prodWithSize (by decide)

/-! ## Lemmas about digit strings and regex search (for claim C5) -/

theorem digitChar_toNat {d : ℕ} (h : d < 10) : (digitChar d).toNat = 48 + d := by
  interval_cases d <;> decide

theorem isDigitCh_digitChar {d : ℕ} (h : d < 10) : isDigitCh (digitChar d) = true := by
  simp only [isDigitCh, digitChar_toNat h, Bool.and_eq_true, decide_eq_true_eq]
  omega

theorem digitVal_digitChar {d : ℕ} (h : d < 10) : digitVal (digitChar d) = d := by
  simp [digitVal, digitChar_toNat h]

theorem digitsVal_append (xs : Str) (c : Char) :
    digitsVal (xs ++ [c]) = 10 * digitsVal xs + digitVal c := by
  simp [digitsVal, List.foldl_append]

theorem digit_toNat_bounds {c : Char} (h : isDigitCh c = true) :
    48 ≤ c.toNat ∧ c.toNat ≤ 57 := by
  simpa [isDigitCh] using h

theorem digit_ne_char {c d : Char} (h : isDigitCh c = true)
    (hd : d.toNat < 48 ∨ 57 < d.toNat) : c ≠ d := by
  obtain ⟨h1, h2⟩ := digit_toNat_bounds h
  intro he
  subst he
  omega

theorem beq_eq_false_of_ne {c d : Char} (h : c ≠ d) : (c == d) = false :=
  beq_eq_false_iff_ne.mpr h

theorem isWsCh_of_digit {c : Char} (h : isDigitCh c = true) : isWsCh c = false := by
  simp only [isWsCh, Char.isWhitespace, Bool.or_eq_false_iff, decide_eq_false_iff_not]
  refine ⟨⟨⟨?_, ?_⟩, ?_⟩, ?_⟩ <;> exact digit_ne_char h (by decide)

theorem natDigitsAux_spec :
    ∀ fuel n, n < fuel →
      natDigitsAux fuel n ≠ [] ∧ (∀ c ∈ natDigitsAux fuel n, isDigitCh c = true) ∧
      digitsVal (natDigitsAux fuel n) = n := by
  intro fuel
  induction fuel with
  | zero => intro n h; omega
  | succ f ih =>
      intro n h
      by_cases h10 : n < 10
      · simp only [natDigitsAux, if_pos h10]
        refine ⟨by simp, ?_, ?_⟩
        · intro c hc
          rw [List.mem_singleton] at hc
          subst hc
          exact isDigitCh_digitChar h10
        · simp [digitsVal, digitVal_digitChar h10]
      · simp only [natDigitsAux, if_neg h10]
        have hdiv : n / 10 < n := Nat.div_lt_self (by omega) (by omega)
        obtain ⟨hne, hdig, hval⟩ := ih (n / 10) (by omega)
        refine ⟨by simp, ?_, ?_⟩
        · intro c hc
          rw [List.mem_append] at hc
          rcases hc with hc | hc
          · exact hdig c hc
          · rw [List.mem_singleton] at hc
            subst hc
            exact isDigitCh_digitChar (Nat.mod_lt _ (by omega))
        · rw [digitsVal_append, hval, digitVal_digitChar (Nat.mod_lt _ (by omega))]
          omega

theorem natDigits_ne_nil (k : ℕ) : natDigits k ≠ [] :=
  (natDigitsAux_spec (k + 1) k (Nat.lt_succ_self k)).1

theorem natDigits_digits (k : ℕ) : ∀ c ∈ natDigits k, isDigitCh c = true :=
  (natDigitsAux_spec (k + 1) k (Nat.lt_succ_self k)).2.1

theorem digitsVal_natDigits (k : ℕ) : digitsVal (natDigits k) = k :=
  (natDigitsAux_spec (k + 1) k (Nat.lt_succ_self k)).2.2

theorem lowerChar_of_digit {c : Char} (h : isDigitCh c = true) : lowerChar c = c := by
  obtain ⟨h1, h2⟩ := digit_toNat_bounds h
  simp only [lowerChar]
  rw [if_neg (by omega)]

theorem lowerStr_of_fixed {s : Str} (h : ∀ c ∈ s, lowerChar c = c) : lowerStr s = s := by
  rw [lowerStr, List.map_congr_left h]
  simp

/-- The first character of the remainder is not a digit (or the remainder is empty):
the condition under which a maximal digit run stops exactly there. -/
def headNotDigit : Str → Prop
  | [] => True
  | c :: _ => isDigitCh c = false

theorem takeDigits_digits_append {ds rest : Str}
    (hds : ∀ c ∈ ds, isDigitCh c = true) (hrest : headNotDigit rest) :
    takeDigits (ds ++ rest) = (ds, rest) := by
  induction ds with
  | nil =>
      cases rest with
      | nil => rfl
      | cons c cs =>
          simp only [headNotDigit] at hrest
          simp [takeDigits, List.takeWhile_cons, List.dropWhile_cons, hrest]
  | cons d ds' ih =>
      have hd : isDigitCh d = true := hds d (List.mem_cons_self d ds')
      have hih := ih (fun c hc => hds c (List.mem_cons_of_mem d hc))
      have h1 : List.takeWhile isDigitCh (ds' ++ rest) = ds' := congrArg Prod.fst hih
      have h2 : List.dropWhile isDigitCh (ds' ++ rest) = rest := congrArg Prod.snd hih
      simp only [takeDigits, List.cons_append, List.takeWhile_cons, List.dropWhile_cons, hd,
        if_true]
      rw [h1, h2]

theorem reSearch_cons_none {α : Type} (mf : Str → Option α) (c : Char) (cs : Str)
    (h : mf (c :: cs) = none) : reSearch mf (c :: cs) = reSearch mf cs := by
  simp [reSearch, h]

theorem reSearch_cons_some {α : Type} (mf : Str → Option α) (c : Char) (cs : Str)
    {v : α} (h : mf (c :: cs) = some v) : reSearch mf (c :: cs) = some v := by
  simp [reSearch, h]

theorem reSearch_append_digits {α : Type} (mf : Str → Option α) (rest : Str)
    (hfail : ∀ ds', ds' ≠ [] → (∀ c ∈ ds', isDigitCh c = true) →
      mf (ds' ++ rest) = none) :
    ∀ ds : Str, (∀ c ∈ ds, isDigitCh c = true) →
      reSearch mf (ds ++ rest) = reSearch mf rest := by
  intro ds
  induction ds with
  | nil => intro _; rfl
  | cons c cs ih =>
      intro hds
      rw [List.cons_append,
        reSearch_cons_none mf c (cs ++ rest) (hfail (c :: cs) (by simp) hds)]
      exact ih (fun c' hc' => hds c' (List.mem_cons_of_mem c hc'))

theorem reSearch_none_of_mem {α : Type} (mf : Str → Option α) :
    ∀ s : Str, (∀ c, c ∈ s → ∀ cs, mf (c :: cs) = none) → reSearch mf s = none := by
  intro s
  induction s with
  | nil => intro _; rfl
  | cons c s' ih =>
      intro h
      rw [reSearch_cons_none mf c s' (h c (List.mem_cons_self c s') s')]
      exact ih (fun c' hc' cs => h c' (List.mem_cons_of_mem c hc') cs)

theorem takeSpaces_space (s : Str) : takeSpaces (' ' :: s) = takeSpaces s :=
  List.dropWhile_cons_of_pos (by decide)

theorem takeSpaces_nows {c : Char} (s : Str) (h : isWsCh c = false) :
    takeSpaces (c :: s) = c :: s :=
  List.dropWhile_cons_of_neg (by simp [h])

theorem matchNumThenLit_fail_nondigit (lit : Str) {c : Char} (cs : Str)
    (h : isDigitCh c = false) : matchNumThenLit lit (c :: cs) = none := by
  have ht : takeDigits (c :: cs) = ([], c :: cs) := by
    refine @takeDigits_digits_append [] (c :: cs) (by simp) ?_
    simp only [headNotDigit]
    exact h
  simp [matchNumThenLit, ht]

theorem matchNumThenLit_ml_hit (ds rest : Str)
    (hds : ∀ c ∈ ds, isDigitCh c = true) (hne : ds ≠ []) :
    matchNumThenLit ('m' :: 'l' :: []) (ds ++ 'm' :: 'l' :: rest) =
      some ((digitsVal ds : ℚ)) := by
  have ht : takeDigits (ds ++ 'm' :: 'l' :: rest) = (ds, 'm' :: 'l' :: rest) := by
    refine takeDigits_digits_append hds ?_
    simp only [headNotDigit]
    decide
  have hsp : takeSpaces ('m' :: 'l' :: rest) = 'm' :: 'l' :: rest :=
    takeSpaces_nows _ (by decide)
  simp [matchNumThenLit, ht, hne, hsp, dropLit, List.isPrefixOf]

theorem matchNumThenLit_ml_fail_sp_x (ds rest : Str)
    (hds : ∀ c ∈ ds, isDigitCh c = true) :
    matchNumThenLit ('m' :: 'l' :: []) (ds ++ ' ' :: 'x' :: rest) = none := by
  rcases ds with _ | ⟨d, ds'⟩
  · exact matchNumThenLit_fail_nondigit _ _ (by decide)
  · have ht : takeDigits (d :: (ds' ++ ' ' :: 'x' :: rest)) =
        (d :: ds', ' ' :: 'x' :: rest) := by
      have h0 := takeDigits_digits_append hds
        (show headNotDigit (' ' :: 'x' :: rest) by simp only [headNotDigit]; decide)
      rwa [List.cons_append] at h0
    have hsp : takeSpaces (' ' :: 'x' :: rest) = 'x' :: rest := by
      rw [takeSpaces_space]
      exact takeSpaces_nows _ (by decide)
    simp [matchNumThenLit, ht, hsp, dropLit, List.isPrefixOf,
      (by decide : ('m' == 'x') = false), (by decide : (('m' : Char) = 'x') = False)]

theorem matchPackOf_fail_head {c : Char} (cs : Str) (h : c ≠ 'p') :
    matchPackOf (c :: cs) = none := by
  simp [matchPackOf, dropLit, List.isPrefixOf, beq_eq_false_of_ne (Ne.symm h)]

theorem matchPackOf_hit (dsN tail : Str) (hds : ∀ c ∈ dsN, isDigitCh c = true)
    (hne : dsN ≠ []) (htail : headNotDigit tail) :
    matchPackOf ('p' :: 'a' :: 'c' :: 'k' :: ' ' :: 'o' :: 'f' :: ' ' :: (dsN ++ tail)) =
      some (digitsVal dsN) := by
  rcases dsN with _ | ⟨d, ds'⟩
  · exact absurd rfl hne
  have hd : isDigitCh d = true := hds d (List.mem_cons_self d ds')
  have hw : isWsCh d = false := isWsCh_of_digit hd
  have ht : takeDigits (d :: (ds' ++ tail)) = (d :: ds', tail) := by
    have h0 := takeDigits_digits_append hds htail
    rwa [List.cons_append] at h0
  have hsp1 : takeSpaces (' ' :: 'o' :: 'f' :: ' ' :: d :: (ds' ++ tail)) =
      'o' :: 'f' :: ' ' :: d :: (ds' ++ tail) := by
    rw [takeSpaces_space]
    exact takeSpaces_nows _ (by decide)
  have hsp2 : takeSpaces (' ' :: d :: (ds' ++ tail)) = d :: (ds' ++ tail) := by
    rw [takeSpaces_space]
    exact takeSpaces_nows _ hw
  simp [matchPackOf, dropLit, List.isPrefixOf, hsp1, hsp2, ht]

theorem matchNxM_hit (dsN dsM rest : Str)
    (hdsN : ∀ c ∈ dsN, isDigitCh c = true) (hneN : dsN ≠ [])
    (hdsM : ∀ c ∈ dsM, isDigitCh c = true) (hneM : dsM ≠ [])
    (hrest : headNotDigit rest) :
    matchNxM (dsN ++ ' ' :: 'x' :: ' ' :: (dsM ++ rest)) = some (digitsVal dsN) := by
  rcases dsM with _ | ⟨e, es⟩
  · exact absurd rfl hneM
  have he : isDigitCh e = true := hdsM e (List.mem_cons_self e es)
  have ht1 : takeDigits (dsN ++ ' ' :: 'x' :: ' ' :: e :: (es ++ rest)) =
      (dsN, ' ' :: 'x' :: ' ' :: e :: (es ++ rest)) := by
    have h0 := takeDigits_digits_append hdsN
      (show headNotDigit (' ' :: 'x' :: ' ' :: ((e :: es) ++ rest))
        by simp only [headNotDigit]; decide)
    rwa [List.cons_append] at h0
  have ht2 : takeDigits (e :: (es ++ rest)) = (e :: es, rest) := by
    have h0 := takeDigits_digits_append hdsM hrest
    rwa [List.cons_append] at h0
  have hsp1 : takeSpaces (' ' :: 'x' :: ' ' :: e :: (es ++ rest)) =
      'x' :: ' ' :: e :: (es ++ rest) := by
    rw [takeSpaces_space]
    exact takeSpaces_nows _ (by decide)
  have hsp2 : takeSpaces (' ' :: e :: (es ++ rest)) = e :: (es ++ rest) := by
    rw [takeSpaces_space]
    exact takeSpaces_nows _ (isWsCh_of_digit he)
  simp [matchNxM, ht1, ht2, hneN, hsp1, hsp2, dropLit, List.isPrefixOf]

theorem sizeTextNxM_shape (n m : ℕ) :
    sizeTextNxM n m =
      natDigits n ++ (' ' :: 'x' :: ' ' :: (natDigits m ++ ('m' :: 'l' :: []))) := by
  simp [sizeTextNxM, List.append_assoc]

theorem sizeTextPackOf_shape (m n : ℕ) :
    sizeTextPackOf m n =
      natDigits m ++ ('m' :: 'l' :: ' ' :: '(' ::
        ('p' :: 'a' :: 'c' :: 'k' :: ' ' :: 'o' :: 'f' :: ' ' ::
          (natDigits n ++ (')' :: [])))) := by
  simp [sizeTextPackOf, List.append_assoc]

theorem mem_sizeTextNxM {c : Char} {n m : ℕ} (hc : c ∈ sizeTextNxM n m) :
    isDigitCh c = true ∨ c = ' ' ∨ c = 'x' ∨ c = 'm' ∨ c = 'l' := by
  rw [sizeTextNxM_shape, List.mem_append] at hc
  rcases hc with hc | hc
  · exact Or.inl (natDigits_digits n c hc)
  · simp only [List.mem_cons, List.mem_append, List.not_mem_nil, or_false] at hc
    rcases hc with hc | hc | hc | hc
    · exact Or.inr (Or.inl hc)
    · exact Or.inr (Or.inr (Or.inl hc))
    · exact Or.inr (Or.inl hc)
    · rcases hc with hc | hc | hc
      · exact Or.inl (natDigits_digits m c hc)
      · exact Or.inr (Or.inr (Or.inr (Or.inl hc)))
      · exact Or.inr (Or.inr (Or.inr (Or.inr hc)))

theorem sizeTextNxM_ne_nil (n m : ℕ) : sizeTextNxM n m ≠ [] := by
  rw [sizeTextNxM_shape]
  simp [natDigits_ne_nil n]

theorem sizeTextPackOf_ne_nil (m n : ℕ) : sizeTextPackOf m n ≠ [] := by
  rw [sizeTextPackOf_shape]
  simp [natDigits_ne_nil m]

theorem lowerStr_append (a b : Str) : lowerStr (a ++ b) = lowerStr a ++ lowerStr b :=
  List.map_append lowerChar a b

theorem lowerStr_natDigits (k : ℕ) : lowerStr (natDigits k) = natDigits k :=
  lowerStr_of_fixed fun c hc => lowerChar_of_digit (natDigits_digits k c hc)

theorem lowerStr_sizeTextNxM (n m : ℕ) : lowerStr (sizeTextNxM n m) = sizeTextNxM n m := by
  rw [sizeTextNxM, lowerStr_append, lowerStr_append, lowerStr_append,
    lowerStr_natDigits, lowerStr_natDigits,
    (by decide : lowerStr (' ' :: 'x' :: ' ' :: []) = ' ' :: 'x' :: ' ' :: []),
    (by decide : lowerStr ('m' :: 'l' :: []) = 'm' :: 'l' :: [])]

theorem lowerStr_sizeTextPackOf (m n : ℕ) :
    lowerStr (sizeTextPackOf m n) = sizeTextPackOf m n := by
  rw [sizeTextPackOf, lowerStr_append, lowerStr_append, lowerStr_append,
    lowerStr_natDigits, lowerStr_natDigits,
    (by decide : lowerStr ('m' :: 'l' :: ' ' :: '(' :: 'p' :: 'a' :: 'c' :: 'k' :: ' ' ::
        'o' :: 'f' :: ' ' :: []) =
      'm' :: 'l' :: ' ' :: '(' :: 'p' :: 'a' :: 'c' :: 'k' :: ' ' :: 'o' :: 'f' :: ' ' :: []),
    (by decide : lowerStr (')' :: []) = ')' :: [])]

theorem reSearch_ml_sizeTextNxM (n m : ℕ) :
    reSearch (matchNumThenLit ('m' :: 'l' :: [])) (sizeTextNxM n m) =
      some ((digitsVal (natDigits m) : ℚ)) := by
  rw [sizeTextNxM_shape]
  rw [reSearch_append_digits _ _
    (fun ds' _ hds' => matchNumThenLit_ml_fail_sp_x ds' _ hds')
    (natDigits n) (natDigits_digits n)]
  rw [reSearch_cons_none _ _ _ (matchNumThenLit_fail_nondigit _ _ (by decide))]
  rw [reSearch_cons_none _ _ _ (matchNumThenLit_fail_nondigit _ _ (by decide))]
  rw [reSearch_cons_none _ _ _ (matchNumThenLit_fail_nondigit _ _ (by decide))]
  obtain ⟨d, ds'', hm⟩ : ∃ d ds'', natDigits m = d :: ds'' := by
    cases hcase : natDigits m with
    | nil => exact absurd hcase (natDigits_ne_nil m)
    | cons d ds'' => exact ⟨d, ds'', rfl⟩
  rw [hm, List.cons_append]
  apply reSearch_cons_some
  have := matchNumThenLit_ml_hit (d :: ds'') []
    (by rw [← hm]; exact natDigits_digits m) (by simp)
  rwa [List.cons_append] at this

theorem reSearch_ml_sizeTextPackOf (m n : ℕ) :
    reSearch (matchNumThenLit ('m' :: 'l' :: [])) (sizeTextPackOf m n) =
      some ((digitsVal (natDigits m) : ℚ)) := by
  rw [sizeTextPackOf_shape]
  obtain ⟨d, ds'', hm⟩ : ∃ d ds'', natDigits m = d :: ds'' := by
    cases hcase : natDigits m with
    | nil => exact absurd hcase (natDigits_ne_nil m)
    | cons d ds'' => exact ⟨d, ds'', rfl⟩
  rw [hm, List.cons_append]
  apply reSearch_cons_some
  have := matchNumThenLit_ml_hit (d :: ds'')
    (' ' :: '(' :: 'p' :: 'a' :: 'c' :: 'k' :: ' ' :: 'o' :: 'f' :: ' ' ::
      (natDigits n ++ (')' :: [])))
    (by rw [← hm]; exact natDigits_digits m) (by simp)
  rwa [List.cons_append] at this

theorem extract_size_ml_NxM (n m : ℕ) :
    extract_size_ml (sizeTextNxM n m) = (m : ℚ) := by
  simp only [extract_size_ml]
  rw [if_neg (sizeTextNxM_ne_nil n m), lowerStr_sizeTextNxM, reSearch_ml_sizeTextNxM,
    digitsVal_natDigits]

theorem extract_size_ml_PackOf (m n : ℕ) :
    extract_size_ml (sizeTextPackOf m n) = (m : ℚ) := by
  simp only [extract_size_ml]
  rw [if_neg (sizeTextPackOf_ne_nil m n), lowerStr_sizeTextPackOf,
    reSearch_ml_sizeTextPackOf, digitsVal_natDigits]

theorem reSearch_packOf_sizeTextNxM (n m : ℕ) :
    reSearch matchPackOf (sizeTextNxM n m) = none := by
  apply reSearch_none_of_mem
  intro c hc cs
  apply matchPackOf_fail_head
  rcases mem_sizeTextNxM hc with hd | hc | hc | hc | hc
  · exact digit_ne_char hd (by decide)
  all_goals (subst hc; decide)

theorem reSearch_nxm_sizeTextNxM (n m : ℕ) :
    reSearch matchNxM (sizeTextNxM n m) = some (digitsVal (natDigits n)) := by
  rw [sizeTextNxM_shape]
  obtain ⟨d, ds'', hm⟩ : ∃ d ds'', natDigits n = d :: ds'' := by
    cases hcase : natDigits n with
    | nil => exact absurd hcase (natDigits_ne_nil n)
    | cons d ds'' => exact ⟨d, ds'', rfl⟩
  rw [hm, List.cons_append]
  apply reSearch_cons_some
  have := matchNxM_hit (d :: ds'') (natDigits m) ('m' :: 'l' :: [])
    (by rw [← hm]; exact natDigits_digits n) (by simp)
    (natDigits_digits m) (natDigits_ne_nil m)
    (by simp only [headNotDigit]; decide)
  rw [List.cons_append] at this
  exact this

theorem extract_pack_qty_NxM (n m : ℕ) : extract_pack_qty (sizeTextNxM n m) [] = n := by
  simp only [extract_pack_qty, packQtySearch]
  rw [if_neg (fun hand => sizeTextNxM_ne_nil n m hand.1)]
  rw [lowerStr_sizeTextNxM, reSearch_packOf_sizeTextNxM, reSearch_nxm_sizeTextNxM,
    digitsVal_natDigits]

theorem reSearch_packOf_sizeTextPackOf (m n : ℕ) :
    reSearch matchPackOf (sizeTextPackOf m n) = some (digitsVal (natDigits n)) := by
  rw [sizeTextPackOf_shape]
  rw [reSearch_append_digits matchPackOf _
    (fun ds' hne' hds' => by
      rcases ds' with _ | ⟨c, cs⟩
      · exact absurd rfl hne'
      · rw [List.cons_append]
        exact matchPackOf_fail_head _
          (digit_ne_char (hds' c (List.mem_cons_self c cs)) (by decide)))
    (natDigits m) (natDigits_digits m)]
  rw [reSearch_cons_none _ _ _ (matchPackOf_fail_head _ (by decide))]
  rw [reSearch_cons_none _ _ _ (matchPackOf_fail_head _ (by decide))]
  rw [reSearch_cons_none _ _ _ (matchPackOf_fail_head _ (by decide))]
  rw [reSearch_cons_none _ _ _ (matchPackOf_fail_head _ (by decide))]
  apply reSearch_cons_some
  exact matchPackOf_hit (natDigits n) (')' :: []) (natDigits_digits n)
    (natDigits_ne_nil n) (by simp only [headNotDigit]; decide)

theorem extract_pack_qty_PackOf (m n : ℕ) :
    extract_pack_qty (sizeTextPackOf m n) [] = n := by
  simp only [extract_pack_qty, packQtySearch]
  rw [if_neg (fun hand => sizeTextPackOf_ne_nil m n hand.1)]
  rw [lowerStr_sizeTextPackOf, reSearch_packOf_sizeTextPackOf, digitsVal_natDigits]

/-- C5: for every count `N ≥ 1` and volume `M`, the two size-text notations
`"N x Mml"` and `"Mml (pack of N)"` both resolve — via `_extract_size_ml` times
`_extract_pack_qty` — to the same total volume of `N*M` millilitres. -/
theorem C5_multipack_notations (n m : ℕ) (_h : 1 ≤ n) :
    totalVolumeMl (sizeTextNxM n m) = ((n * m : ℕ) : ℚ) ∧
    totalVolumeMl (sizeTextPackOf m n) = ((n * m : ℕ) : ℚ) ∧
    totalVolumeMl (sizeTextNxM n m) = totalVolumeMl (sizeTextPackOf m n) := by
  have h1 : totalVolumeMl (sizeTextNxM n m) = ((n * m : ℕ) : ℚ) := by
    rw [totalVolumeMl, extract_size_ml_NxM, extract_pack_qty_NxM]
    push_cast
    ring
  have h2 : totalVolumeMl (sizeTextPackOf m n) = ((n * m : ℕ) : ℚ) := by
    rw [totalVolumeMl, extract_size_ml_PackOf, extract_pack_qty_PackOf]
    push_cast
    ring
  exact ⟨h1, h2, h1.trans h2.symm⟩

/-- C5 witness: the theorem applied at N = 12, M = 1250, the spec's example
("12 x 1250ml" and "1250ml (pack of 12)" both resolve to 15,000 ml). -/
theorem C5_multipack_notations_witness :
    1 ≤ 12 ∧
    totalVolumeMl (sizeTextNxM 12 1250) = ((12 * 1250 : ℕ) : ℚ) ∧
    totalVolumeMl (sizeTextPackOf 1250 12) = ((12 * 1250 : ℕ) : ℚ) ∧
    totalVolumeMl (sizeTextNxM 12 1250) = totalVolumeMl (sizeTextPackOf 1250 12) :=
  ⟨by decide, C5_multipack_notations 12 1250 (by decide)⟩
